import Mathlib

/-!
Verification of the tokenlegal result-rendering and CSV-export core.

The embedded functions follow the two source files:
* `flattenObject` / `convertToCSV` from the home page component
  (`src/unnamed/part_000`, lines 106-133);
* `renderValue` / `ResultsTable` from
  `src/ubuntu/token_analysis_app/src/app/ResultsTable.tsx`.

JSON-like values are modelled as a closed inductive type.  JavaScript
numbers are modelled as integers (`Int`), which covers the exact integral
values appearing in the repository's data paths; `String(n)` then agrees
with `toString n`.  Object key iteration is modelled as the field-list
order, matching the spec's data model of an insertion-ordered, key-unique
mapping.
-/

namespace TokenLegal

/-- A JSON-like runtime value: `null`, booleans, numbers, strings,
arrays, and insertion-ordered objects. -/
inductive JsonValue where
  | null
  | bool (b : Bool)
  | num (n : Int)
  | str (s : String)
  | arr (items : List JsonValue)
  | obj (fields : List (String × JsonValue))

mutual
/-- JavaScript `String(v)` for values reachable here.  `String` on an
array joins the elements with `","` (`Array.prototype.toString`), with
`null` elements contributing the empty string; on a plain object it
yields `"[object Object]"`. -/
def jsString : JsonValue → String
  | .null => "null"
  | .bool true => "true"
  | .bool false => "false"
  | .num n => toString n
  | .str s => s
  | .arr xs => jsJoinComma xs
  | .obj _ => "[object Object]"

/-- `Array.prototype.join(",")` as invoked by `String` on an array. -/
def jsJoinComma : List JsonValue → String
  | [] => ""
  | [v] => jsJoinItem v
  | v :: r :: s => jsJoinItem v ++ "," ++ jsJoinComma (r :: s)

/-- One element under `Array.prototype.join`: `null` becomes the empty
string, everything else is converted with `String`. -/
def jsJoinItem : JsonValue → String
  | .null => ""
  | .bool true => "true"
  | .bool false => "false"
  | .num n => toString n
  | .str s => s
  | .arr xs => jsJoinComma xs
  | .obj _ => "[object Object]"
end

/-- A lowercase hexadecimal digit, as used by `JSON.stringify` for
`\uXXXX` escapes. -/
def hexDigit (n : Nat) : Char :=
  if n < 10 then Char.ofNat (48 + n) else Char.ofNat (87 + n)

/-- Four lowercase hexadecimal digits. -/
def hex4 (n : Nat) : String :=
  String.mk [hexDigit (n / 4096 % 16), hexDigit (n / 256 % 16),
    hexDigit (n / 16 % 16), hexDigit (n % 16)]

/-- `JSON.stringify`'s escaping of one character inside a string
literal. -/
def jsonEscapeChar (c : Char) : String :=
  if c = '"' then "\\\""
  else if c = '\\' then "\\\\"
  else if c = '\n' then "\\n"
  else if c = '\r' then "\\r"
  else if c = '\t' then "\\t"
  else if c = '\x08' then "\\b"
  else if c = '\x0c' then "\\f"
  else if c.toNat < 32 then "\\u" ++ hex4 c.toNat
  else String.singleton c

/-- `JSON.stringify`'s escaping of a whole string body. -/
def jsonEscape (s : String) : String :=
  String.join (s.data.map jsonEscapeChar)

mutual
/-- Compact `JSON.stringify(v)` (no spacing argument), as used on array
items inside `flattenObject`. -/
def jsonStringify : JsonValue → String
  | .null => "null"
  | .bool true => "true"
  | .bool false => "false"
  | .num n => toString n
  | .str s => "\"" ++ jsonEscape s ++ "\""
  | .arr xs => "[" ++ jsonArrBody xs ++ "]"
  | .obj fs => "\x7b" ++ jsonObjBody fs ++ "\x7d"

/-- Comma-joined compact JSON renderings of array elements. -/
def jsonArrBody : List JsonValue → String
  | [] => ""
  | [v] => jsonStringify v
  | v :: r :: s => jsonStringify v ++ "," ++ jsonArrBody (r :: s)

/-- Comma-joined compact JSON renderings of object members. -/
def jsonObjBody : List (String × JsonValue) → String
  | [] => ""
  | [(k, v)] => "\"" ++ jsonEscape k ++ "\":" ++ jsonStringify v
  | (k, v) :: r :: s =>
      "\"" ++ jsonEscape k ++ "\":" ++ jsonStringify v ++ "," ++ jsonObjBody (r :: s)
end

/-- One array item in `flattenObject`'s array branch:
`typeof item === 'object' ? JSON.stringify(item) : item` followed by the
stringification performed by `join`.  Note `typeof null === 'object'`,
so `null` goes through `JSON.stringify` and yields `"null"`. -/
def arrItemStr : JsonValue → String
  | .null => "null"
  | .arr xs => jsonStringify (.arr xs)
  | .obj fs => jsonStringify (.obj fs)
  | v => jsString v

/-- The array branch of `flattenObject` (line 115):
`obj[key].map(item => typeof item === 'object' ? JSON.stringify(item) : item).join("; ")`. -/
def joinedArray (xs : List JsonValue) : String :=
  String.intercalate "; " (xs.map arrItemStr)

/-- The flat mapping accumulated by `flattenObject`: a JavaScript object
whose insertion order is the order of first assignment. -/
abbrev FlatMap := List (String × JsonValue)

/-- JavaScript property assignment `res[k] = v` on an object: an
existing key keeps its position and gets the new value, a new key is
appended. -/
def jsAssign : FlatMap → String → JsonValue → FlatMap
  | [], k, v => [(k, v)]
  | (k', v') :: rest, k, v =>
      if k' = k then (k, v) :: rest else (k', v') :: jsAssign rest k v

/-- `const newKey = prefix ? prefix + "." + key : key` (line 109); the
empty string is the only falsy string. -/
def childPath (pre key : String) : String :=
  if pre = "" then key else pre ++ "." ++ key

mutual
/-- The loop body of `flattenObject` (lines 107-120), walking the
object's own keys in insertion order. -/
def flattenFields (pre : String) : List (String × JsonValue) → FlatMap → FlatMap
  | [], res => res
  | (key, v) :: rest, res => flattenFields pre rest (flattenEntry pre key v res)

/-- One loop iteration of `flattenObject` for key `key` holding value
`v`: recurse into a non-array object, collapse an array to one joined
string, assign any other value directly (lines 110-118). -/
def flattenEntry (pre key : String) : JsonValue → FlatMap → FlatMap
  | .obj fs, res => flattenFields (childPath pre key) fs res
  | .arr xs, res => jsAssign res (childPath pre key) (.str (joinedArray xs))
  | v, res => jsAssign res (childPath pre key) v
end

/-- Index-keyed own fields of a string, as enumerated by `for (key in s)`
on a string primitive. -/
def strOwnFields (s : String) : List (String × JsonValue) :=
  s.data.enum.map fun e => (toString e.1, JsonValue.str (String.singleton e.2))

/-- Index-keyed own fields of an array, as enumerated by `for (key in a)`. -/
def arrOwnFields (xs : List JsonValue) : List (String × JsonValue) :=
  xs.enum.map fun e => (toString e.1, e.2)

/-- `flattenObject(obj, prefix, res)` (lines 106-122).  The `for...in`
loop enumerates an object's own keys in insertion order; on a string it
enumerates character indices, on an array element indices, and on
`null`/booleans/numbers nothing.  Recursive calls only ever receive
non-array objects. -/
def flattenObject (v : JsonValue) (pre : String) (res : FlatMap) : FlatMap :=
  match v with
  | .obj fs => flattenFields pre fs res
  | .str s => flattenFields pre (strOwnFields s) res
  | .arr xs => flattenFields pre (arrOwnFields xs) res
  | _ => res

/-- `flattenObject(jsonData)` with the default arguments `prefix = ""`,
`res = {}`. -/
def flatten (v : JsonValue) : FlatMap :=
  flattenObject v "" []

/-- The global regex replacement `strValue.replace(/"/g, '""')`
(line 130): the pattern is the single character `"`, so the replacement
is a per-character map. -/
def doubleQuotes (s : String) : String :=
  String.join (s.data.map fun c => if c = '"' then "\"\"" else String.singleton c)

/-- One CSV value field (lines 127-131): `String(value)`, every literal
double quote doubled, the whole wrapped in double quotes. -/
def csvField (v : JsonValue) : String :=
  "\"" ++ doubleQuotes (jsString v) ++ "\""

/-- The serialization step of `convertToCSV` on an already-flat mapping:
keys joined by `","` form the header, quoted values joined by `","` form
the value line, and the result is `header + "\n" + values`
(lines 126-132). -/
def toCsv (entries : FlatMap) : String :=
  String.intercalate "," (entries.map Prod.fst) ++ "\n" ++
    String.intercalate "," (entries.map fun e => csvField e.2)

/-- `convertToCSV(jsonData)` (lines 124-133). -/
def convertToCSV (v : JsonValue) : String :=
  toCsv (flatten v)

/-- The displayable tree produced by the renderer: a scalar text, an
ordered list, or a row-oriented table of label/value pairs. -/
inductive DisplayNode where
  | scalar (s : String)
  | list (items : List DisplayNode)
  | table (rows : List (String × DisplayNode))

/-- Key formatting `key.replace(/_/g, ' ')` used for row labels
(ResultsTable.tsx lines 24 and 69): the pattern is the single character
`_`, so the global replacement is a per-character map. -/
def humanize (k : String) : String :=
  String.join (k.data.map fun c => if c = '_' then " " else String.singleton c)

mutual
/-- `renderValue` (ResultsTable.tsx lines 7-39): non-null objects are
dispatched first (arrays to lists, other objects to label/value
tables), then `null`/absent to the `"N/A"` sentinel, booleans to
`"Yes"`/`"No"`, and any remaining scalar to `String(value)`. -/
def renderValue : JsonValue → DisplayNode
  | .arr xs => .list (renderList xs)
  | .obj fs => .table (renderRows fs)
  | .null => .scalar "N/A"
  | .bool true => .scalar "Yes"
  | .bool false => .scalar "No"
  | .num n => .scalar (toString n)
  | .str s => .scalar s

/-- The `value.map((item, index) => ... renderValue(item) ...)` list body
(ResultsTable.tsx lines 12-14). -/
def renderList : List JsonValue → List DisplayNode
  | [] => []
  | v :: r => renderValue v :: renderList r

/-- The `Object.entries(value).map(([key, val]) => ...)` table body
(ResultsTable.tsx lines 22-27 and 66-75): each row is the humanized key
with the recursively rendered value. -/
def renderRows : List (String × JsonValue) → List (String × DisplayNode)
  | [] => []
  | (k, v) :: r => (humanize k, renderValue v) :: renderRows r
end

/-- JavaScript truthiness of a value, as used by `if (!data)` and
`if (displayData._documents)`: `null`, `false`, `0` and the empty
string are falsy, everything else here is truthy. -/
def jsTruthy : JsonValue → Bool
  | .null => false
  | .bool b => b
  | .num n => n != 0
  | .str s => s != ""
  | .arr _ => true
  | .obj _ => true

/-- Outcome of the top-level `ResultsTable` component: either the
"No data to display." paragraph or the two-column table. -/
inductive RenderOutcome where
  | noData
  | table (rows : List (String × DisplayNode))

/-- Own enumerable fields of the spread copy `{...data}`: an object's
fields, an array's or string's index-keyed elements, nothing for other
primitives. -/
def spreadFields : JsonValue → List (String × JsonValue)
  | .obj fs => fs
  | .arr xs => arrOwnFields xs
  | .str s => strOwnFields s
  | _ => []

/-- Removal of a key from an object, as performed by
`delete displayData._documents` (keys are unique in a JavaScript
object). -/
def deleteKey (fs : List (String × JsonValue)) (k : String) :
    List (String × JsonValue) :=
  fs.filter fun e => e.1 != k

/-- The guard `if (displayData._documents)` (ResultsTable.tsx line 48):
property access followed by a truthiness test, so a missing key or a
falsy value both skip the deletion. -/
def hasTruthyDocuments (fs : List (String × JsonValue)) : Bool :=
  match List.lookup "_documents" fs with
  | some v => jsTruthy v
  | none => false

/-- `ResultsTable` (ResultsTable.tsx lines 41-79): falsy data yields the
"No data to display." outcome; otherwise a spread copy is taken, the
`_documents` key is deleted from the copy when its value is truthy, and
each remaining entry becomes a row of humanized key and rendered
value. -/
def resultsTable (data : JsonValue) : RenderOutcome :=
  if jsTruthy data then
    let fs := spreadFields data
    let fs' := if hasTruthyDocuments fs then deleteKey fs "_documents" else fs
    .table (renderRows fs')
  else .noData

mutual
/-- Modelled from the spec (section 4.3): the emission sequence of the
recursive, depth-first, key-insertion-order traversal, used as the
comparison target for the flattener's output order.  Leaf and array
values are rendered exactly as `flattenEntry` stores them, so equality
with `flatten` is purely a statement about the entry sequence. -/
def specFlattenSeq (pre : String) : List (String × JsonValue) → FlatMap
  | [] => []
  | (key, v) :: rest => specFlattenEntry pre key v ++ specFlattenSeq pre rest

/-- Modelled from the spec (section 4.3): the entries a single key
contributes to the depth-first traversal; an intermediate non-array
object contributes no entry of its own. -/
def specFlattenEntry (pre key : String) : JsonValue → FlatMap
  | .obj fs => specFlattenSeq (childPath pre key) fs
  | .arr xs => [(childPath pre key, .str (joinedArray xs))]
  | v => [(childPath pre key, v)]
end

/-- Discriminator for string-tagged values, used to state the spec's
"every FlatEntry's value is a string". -/
def isStr : JsonValue → Bool
  | .str _ => true
  | _ => false

/-- Discriminator for composite (object or array) values. -/
def isComposite : JsonValue → Bool
  | .obj _ => true
  | .arr _ => true
  | _ => false

theorem nodup_append_singleton_not_mem {α : Type} {xs : List α} {k : α}
    (h : (xs ++ [k]).Nodup) : k ∉ xs := by
  have h' : (k :: xs).Nodup := ((List.perm_append_singleton k xs).nodup_iff).mp h
  exact (List.nodup_cons.mp h').1

theorem jsAssign_of_not_mem (k : String) (v : JsonValue) :
    ∀ res : FlatMap, k ∉ res.map Prod.fst → jsAssign res k v = res ++ [(k, v)] := by
  intro res
  induction res with
  | nil => intro _; rfl
  | cons e rest ih =>
    intro h
    obtain ⟨k', v'⟩ := e
    simp only [List.map_cons, List.mem_cons] at h
    push_neg at h
    simp [jsAssign, Ne.symm h.1, ih h.2]

theorem mem_keys_jsAssign {k a : String} {v : JsonValue} :
    ∀ {res : FlatMap}, a ∈ (jsAssign res k v).map Prod.fst →
      a ∈ res.map Prod.fst ∨ a = k := by
  intro res
  induction res with
  | nil =>
    intro h
    simp only [jsAssign, List.map_cons, List.map_nil, List.mem_singleton] at h
    exact Or.inr h
  | cons e rest ih =>
    intro h
    obtain ⟨k', v'⟩ := e
    by_cases hk : k' = k
    · simp only [jsAssign, if_pos hk, List.map_cons, List.mem_cons] at h
      rcases h with h | h
      · exact Or.inr h
      · exact Or.inl (by simp [List.mem_cons, h])
    · simp only [jsAssign, if_neg hk, List.map_cons, List.mem_cons] at h
      rcases h with h | h
      · exact Or.inl (by simp [List.mem_cons, h])
      · rcases ih h with h' | h'
        · exact Or.inl (by simp [List.mem_cons, h'])
        · exact Or.inr h'

theorem jsAssign_nodup_keys (k : String) (v : JsonValue) :
    ∀ res : FlatMap, (res.map Prod.fst).Nodup →
      ((jsAssign res k v).map Prod.fst).Nodup := by
  intro res
  induction res with
  | nil => intro _; simp [jsAssign]
  | cons e rest ih =>
    intro h
    obtain ⟨k', v'⟩ := e
    simp only [List.map_cons, List.nodup_cons] at h
    by_cases hk : k' = k
    · subst hk
      simpa [jsAssign] using h
    · simp only [jsAssign, hk, if_false, List.map_cons, List.nodup_cons]
      refine ⟨fun hmem => ?_, ih h.2⟩
      rcases mem_keys_jsAssign hmem with h' | h'
      · exact h.1 h'
      · exact hk h'

theorem mem_jsAssign {res : FlatMap} {k : String} {v : JsonValue}
    {e : String × JsonValue} (h : e ∈ jsAssign res k v) :
    e ∈ res ∨ e = (k, v) := by
  induction res with
  | nil => simp [jsAssign] at h; simp [h]
  | cons f rest ih =>
    obtain ⟨k', v'⟩ := f
    by_cases hk : k' = k
    · simp [jsAssign, hk] at h
      rcases h with h | h
      · exact Or.inr h
      · exact Or.inl (by simp [h])
    · simp [jsAssign, hk] at h
      rcases h with h | h
      · exact Or.inl (by simp [h])
      · rcases ih h with h' | h'
        · exact Or.inl (by simp [h'])
        · exact Or.inr h'

theorem renderRows_labels (fs : List (String × JsonValue)) :
    (renderRows fs).map Prod.fst = fs.map fun e => humanize e.1 := by
  induction fs with
  | nil => rfl
  | cons e rest ih => obtain ⟨k, v⟩ := e; simp [renderRows, ih]

theorem string_append_left_cancel {a b c : String} (h : a ++ b = a ++ c) :
    b = c := by
  have hd := congrArg String.data h
  simp only [String.data_append] at hd
  have hbc := List.append_cancel_left hd
  cases b
  cases c
  exact congrArg String.mk hbc

mutual
theorem flattenFields_eq_append (pre : String) :
    ∀ (l : List (String × JsonValue)) (res : FlatMap),
      ((res ++ specFlattenSeq pre l).map Prod.fst).Nodup →
      flattenFields pre l res = res ++ specFlattenSeq pre l
  | [], res, _ => by simp [flattenFields, specFlattenSeq]
  | (key, v) :: rest, res, h => by
    have hsub : (res ++ specFlattenEntry pre key v).Sublist
        (res ++ (specFlattenEntry pre key v ++ specFlattenSeq pre rest)) :=
      (List.sublist_append_left _ _).append_left res
    have h1 : ((res ++ specFlattenEntry pre key v).map Prod.fst).Nodup := by
      refine List.Nodup.sublist (hsub.map Prod.fst) ?_
      simpa [specFlattenSeq] using h
    have e1 := flattenEntry_eq_append pre key v res h1
    have h2 : (((res ++ specFlattenEntry pre key v) ++
        specFlattenSeq pre rest).map Prod.fst).Nodup := by
      rw [List.append_assoc]
      simpa [specFlattenSeq] using h
    calc flattenFields pre ((key, v) :: rest) res
        = flattenFields pre rest (flattenEntry pre key v res) := rfl
      _ = flattenFields pre rest (res ++ specFlattenEntry pre key v) := by rw [e1]
      _ = (res ++ specFlattenEntry pre key v) ++ specFlattenSeq pre rest :=
          flattenFields_eq_append pre rest _ h2
      _ = res ++ specFlattenSeq pre ((key, v) :: rest) := by
          simp [specFlattenSeq, List.append_assoc]

theorem flattenEntry_eq_append (pre key : String) :
    ∀ (v : JsonValue) (res : FlatMap),
      ((res ++ specFlattenEntry pre key v).map Prod.fst).Nodup →
      flattenEntry pre key v res = res ++ specFlattenEntry pre key v
  | .obj fs, res, h => by
    simpa [flattenEntry, specFlattenEntry] using
      flattenFields_eq_append (childPath pre key) fs res
        (by simpa [specFlattenEntry] using h)
  | .arr xs, res, h => by
    have hk : childPath pre key ∉ res.map Prod.fst := by
      exact nodup_append_singleton_not_mem
        (by simpa [specFlattenEntry, List.map_append] using h)
    simp [flattenEntry, specFlattenEntry, jsAssign_of_not_mem _ _ res hk]
  | .null, res, h => by
    have hk : childPath pre key ∉ res.map Prod.fst := by
      exact nodup_append_singleton_not_mem
        (by simpa [specFlattenEntry, List.map_append] using h)
    simp [flattenEntry, specFlattenEntry, jsAssign_of_not_mem _ _ res hk]
  | .bool b, res, h => by
    have hk : childPath pre key ∉ res.map Prod.fst := by
      exact nodup_append_singleton_not_mem
        (by simpa [specFlattenEntry, List.map_append] using h)
    simp [flattenEntry, specFlattenEntry, jsAssign_of_not_mem _ _ res hk]
  | .num n, res, h => by
    have hk : childPath pre key ∉ res.map Prod.fst := by
      exact nodup_append_singleton_not_mem
        (by simpa [specFlattenEntry, List.map_append] using h)
    simp [flattenEntry, specFlattenEntry, jsAssign_of_not_mem _ _ res hk]
  | .str s, res, h => by
    have hk : childPath pre key ∉ res.map Prod.fst := by
      exact nodup_append_singleton_not_mem
        (by simpa [specFlattenEntry, List.map_append] using h)
    simp [flattenEntry, specFlattenEntry, jsAssign_of_not_mem _ _ res hk]
end

mutual
theorem flattenFields_nodup_keys (pre : String) :
    ∀ (l : List (String × JsonValue)) (res : FlatMap),
      (res.map Prod.fst).Nodup → ((flattenFields pre l res).map Prod.fst).Nodup
  | [], _, h => h
  | (key, v) :: rest, res, h =>
    flattenFields_nodup_keys pre rest _ (flattenEntry_nodup_keys pre key v res h)

theorem flattenEntry_nodup_keys (pre key : String) :
    ∀ (v : JsonValue) (res : FlatMap), (res.map Prod.fst).Nodup →
      ((flattenEntry pre key v res).map Prod.fst).Nodup
  | .obj fs, res, h => flattenFields_nodup_keys (childPath pre key) fs res h
  | .arr _, res, h => jsAssign_nodup_keys _ _ res h
  | .null, res, h => jsAssign_nodup_keys _ _ res h
  | .bool _, res, h => jsAssign_nodup_keys _ _ res h
  | .num _, res, h => jsAssign_nodup_keys _ _ res h
  | .str _, res, h => jsAssign_nodup_keys _ _ res h
end

mutual
theorem flattenFields_flat_values (pre : String) :
    ∀ (l : List (String × JsonValue)) (res : FlatMap),
      (∀ e ∈ res, isComposite e.2 = false) →
      ∀ e ∈ flattenFields pre l res, isComposite e.2 = false
  | [], _, h => h
  | (key, v) :: rest, res, h =>
    flattenFields_flat_values pre rest _ (flattenEntry_flat_values pre key v res h)

theorem flattenEntry_flat_values (pre key : String) :
    ∀ (v : JsonValue) (res : FlatMap),
      (∀ e ∈ res, isComposite e.2 = false) →
      ∀ e ∈ flattenEntry pre key v res, isComposite e.2 = false
  | .obj fs, res, h => flattenFields_flat_values (childPath pre key) fs res h
  | .arr xs, res, h => fun e he => by
    rcases mem_jsAssign he with h' | h'
    · exact h e h'
    · rw [h']
      rfl
  | .null, res, h => fun e he => by
    rcases mem_jsAssign he with h' | h'
    · exact h e h'
    · rw [h']
      rfl
  | .bool b, res, h => fun e he => by
    rcases mem_jsAssign he with h' | h'
    · exact h e h'
    · rw [h']
      rfl
  | .num n, res, h => fun e he => by
    rcases mem_jsAssign he with h' | h'
    · exact h e h'
    · rw [h']
      rfl
  | .str s, res, h => fun e he => by
    rcases mem_jsAssign he with h' | h'
    · exact h e h'
    · rw [h']
      rfl
end

/-- C1 (counterexample): flattening `{"a": {"b": 1, "c": 2}}` does not
yield the string-valued entries `("a.b","1")` and `("a.c","2")` the
claim states: the stored values keep their numeric type, so the claim's
concrete instance is false. -/
theorem claim1_counterexample :
    flatten (.obj [("a", .obj [("b", .num 1), ("c", .num 2)])]) ≠
      [("a.b", .str "1"), ("a.c", .str "2")] := by
  have he : flatten (.obj [("a", .obj [("b", .num 1), ("c", .num 2)])]) =
      [("a.b", .num 1), ("a.c", .num 2)] := rfl
  rw [he]
  simp

/-- C1 (amended): for a non-empty top-level key `a` holding an object
with two distinct keys `b` and `c` with numeric leaves, flatten iterates
the keys in insertion order, composes the child paths `a.b` and `a.c`,
recurses without emitting an entry for the intermediate object, and
emits exactly the two leaf entries in order -- with the leaf values kept
as numbers, not converted to strings. -/
theorem claim1_amended (a b c : String) (n m : Int) (ha : a ≠ "") (hbc : b ≠ c) :
    flatten (.obj [(a, .obj [(b, .num n), (c, .num m)])]) =
      [(a ++ "." ++ b, .num n), (a ++ "." ++ c, .num m)] := by
  have hne : a ++ "." ++ b ≠ a ++ "." ++ c := fun h =>
    hbc (string_append_left_cancel h)
  simp [flatten, flattenObject, flattenFields, flattenEntry, childPath, ha,
    jsAssign, hne]

/-- Witness for C1 (amended) at the spec's own example input. -/
theorem claim1_amended_witness :
    flatten (.obj [("a", .obj [("b", .num 1), ("c", .num 2)])]) =
      [("a.b", .num 1), ("a.c", .num 2)] :=
  (claim1_amended "a" "b" "c" 1 2 (by decide) (by decide)).trans (by rfl)

/-- C2: an array value always collapses to a single FlatEntry whose
value is the items joined with `"; "`, scalars stringified directly and
objects or nested arrays rendered as compact JSON text; in particular
`{"tags": ["x","y"]}` flattens to `[("tags", "x; y")]` and
`{"items":[{"n":1}]}` to a single entry holding the JSON text of
`{"n":1}`. -/
theorem claim2 :
    (∀ (k : String) (xs : List JsonValue),
        flatten (.obj [(k, .arr xs)]) = [(k, .str (joinedArray xs))]) ∧
      flatten (.obj [("tags", .arr [.str "x", .str "y"])]) =
        [("tags", .str "x; y")] ∧
      flatten (.obj [("items", .arr [.obj [("n", .num 1)]])]) =
        [("items", .str "\x7b\"n\":1\x7d")] ∧
      joinedArray [.num 1, .bool true, .null, .str "x", .arr [.num 2, .num 3]] =
        "1; true; null; x; [2,3]" := by
  refine ⟨fun k xs => ?_, rfl, rfl, rfl⟩
  simp [flatten, flattenObject, flattenFields, flattenEntry, childPath, jsAssign]

/-- C3 (counterexample): for the input `{"_documents": null}` the
top-level render does not exclude the reserved key (the claim would
require the empty table): the guard tests truthiness, and `null` is
falsy, so the row is kept. -/
theorem claim3_counterexample :
    resultsTable (.obj [("_documents", .null)]) ≠ .table [] := by
  have he : resultsTable (.obj [("_documents", .null)]) =
      .table [(" documents", .scalar "N/A")] := rfl
  rw [he]
  simp

/-- C3 (amended): the top-level render excludes `_documents` exactly
when its value is truthy; a falsy `_documents` value (such as `null`)
is rendered like any other key; flatten never excludes `_documents`,
and nested occurrences are not excluded either.  The render operates on
a pure copy, so the input value is unchanged by construction. -/
theorem claim3_amended :
    (∀ (fs : List (String × JsonValue)) (v : JsonValue),
        List.lookup "_documents" fs = some v → jsTruthy v = true →
        resultsTable (.obj fs) = .table (renderRows (deleteKey fs "_documents"))) ∧
      (∀ (fs : List (String × JsonValue)) (v : JsonValue),
        List.lookup "_documents" fs = some v → jsTruthy v = false →
        resultsTable (.obj fs) = .table (renderRows fs)) ∧
      flatten (.obj [("_documents", .num 7), ("a", .num 1)]) =
        [("_documents", .num 7), ("a", .num 1)] ∧
      renderValue (.obj [("x", .obj [("_documents", .num 7)])]) =
        .table [("x", .table [(" documents", .scalar "7")])] := by
  refine ⟨?_, ?_, rfl, rfl⟩ <;> intro fs v hl ht <;>
    simp [resultsTable, spreadFields, hasTruthyDocuments, hl, ht,
      show jsTruthy (JsonValue.obj fs) = true from rfl]

/-- Witness for C3 (amended): a truthy `_documents` value is excluded
from the top-level table. -/
theorem claim3_amended_witness :
    resultsTable (.obj [("_documents", .num 7), ("a", .num 1)]) =
      .table (renderRows
        (deleteKey [("_documents", .num 7), ("a", .num 1)] "_documents")) :=
  claim3_amended.1 _ (.num 7) (by rfl) (by rfl)

/-- C4 (counterexample): not every FlatEntry value is a string: the
numeric leaf of `{"a": 1}` survives flattening as the number `1`. -/
theorem claim4_counterexample :
    ¬ ∀ e ∈ flatten (.obj [("a", .num 1)]), isStr e.2 = true := by
  intro h
  have hm : ("a", JsonValue.num 1) ∈ flatten (.obj [("a", .num 1)]) := by
    have he : flatten (.obj [("a", .num 1)]) = [("a", .num 1)] := rfl
    rw [he]
    simp
  have hc := h _ hm
  simp [isStr] at hc

/-- C4 (amended): scalar leaves keep their runtime type at the
flat-mapping stage (only arrays are stringified there, by the join);
every value becomes a quoted string only at CSV serialization; and no
flat value is ever a raw object or array. -/
theorem claim4_amended :
    flatten (.obj [("a", .num 1), ("b", .bool true)]) =
        [("a", .num 1), ("b", .bool true)] ∧
      convertToCSV (.obj [("a", .num 1), ("b", .bool true)]) =
        "a,b\n\"1\",\"true\"" ∧
      ∀ fs : List (String × JsonValue), ∀ e ∈ flatten (.obj fs),
        isComposite e.2 = false := by
  refine ⟨rfl, rfl, fun fs => ?_⟩
  exact flattenFields_flat_values "" fs [] (by simp)

/-- Witness for C4 (amended): the flat value of `{"a": 1}` is not a
composite value. -/
theorem claim4_amended_witness :
    isComposite (("a", JsonValue.num 1) : String × JsonValue).2 = false :=
  claim4_amended.2.2 [("a", .num 1)] ("a", .num 1)
    (by have he : flatten (.obj [("a", .num 1)]) = [("a", .num 1)] := rfl
        rw [he]
        simp)

/-- C5: `toCsv` returns exactly `header + "\n" + values`, the header
being the paths joined by `","` without quoting, the value line being
each value stringified with doubled quotes and wrapped in double
quotes, joined by `","`; the value `He said "hi", ok` serializes to the
field `"He said ""hi"", ok"`, and a header path is emitted unquoted
even when it contains a comma. -/
theorem claim5 :
    (∀ entries : FlatMap,
        toCsv entries =
          String.intercalate "," (entries.map Prod.fst) ++ "\n" ++
            String.intercalate ","
              (entries.map fun e => "\"" ++ doubleQuotes (jsString e.2) ++ "\"")) ∧
      csvField (.str "He said \"hi\", ok") = "\"He said \"\"hi\"\", ok\"" ∧
      toCsv [("a,b", .num 1)] = "a,b\n\"1\"" :=
  ⟨fun _ => rfl, rfl, rfl⟩

/-- C6 (counterexample): the flatten output is not always the
depth-first traversal sequence: when two composed dotted paths collide
(top-level key `"a.b"` against nested `"a"."b"`), the flat mapping is a
JavaScript object, so the later assignment overwrites the earlier entry
in place instead of emitting a second entry. -/
theorem claim6_counterexample :
    flatten (.obj [("a.b", .num 1), ("a", .obj [("b", .num 2)])]) ≠
      specFlattenSeq "" [("a.b", .num 1), ("a", .obj [("b", .num 2)])] := by
  intro h
  have hl := congrArg List.length h
  have h1 : (flatten (.obj [("a.b", .num 1), ("a", .obj [("b", .num 2)])])).length
      = 1 := rfl
  have h2 : (specFlattenSeq "" [("a.b", .num 1), ("a", .obj [("b", .num 2)])]).length
      = 2 := rfl
  rw [h1, h2] at hl
  exact absurd hl (by decide)

/-- C6 (amended): whenever the composed dotted paths of the depth-first
traversal are pairwise distinct, the flatten output is exactly the
recursive, depth-first, key-insertion-order emission sequence (all
descendants of a key contiguous before the next sibling); and the
renderer preserves each object's key order as the row-label order,
never reordering. -/
theorem claim6_amended :
    (∀ fs : List (String × JsonValue),
        ((specFlattenSeq "" fs).map Prod.fst).Nodup →
        flatten (.obj fs) = specFlattenSeq "" fs) ∧
      ∀ fs : List (String × JsonValue),
        (renderRows fs).map Prod.fst = fs.map fun e => humanize e.1 := by
  refine ⟨fun fs h => ?_, renderRows_labels⟩
  have hfe := flattenFields_eq_append "" fs [] (by simpa using h)
  simpa using hfe

/-- Witness for C6 (amended) at a two-key object with a nested object. -/
theorem claim6_amended_witness :
    flatten (.obj [("a", .obj [("b", .num 1), ("c", .num 2)]), ("x", .num 3)]) =
      specFlattenSeq "" [("a", .obj [("b", .num 1), ("c", .num 2)]), ("x", .num 3)] :=
  claim6_amended.1 _ (by decide)

/-- C7: for every object input, the sequence of dotted paths produced by
flatten has no duplicates -- the flat mapping is accumulated with
JavaScript property assignment, which never creates a second entry for
an existing key. -/
theorem claim7 (fs : List (String × JsonValue)) :
    ((flatten (.obj fs)).map Prod.fst).Nodup :=
  flattenFields_nodup_keys "" fs [] (by simp)

/-- C8: empty inputs produce empty outputs, not errors: flattening the
empty object yields the empty sequence, and serializing an empty entry
sequence yields the single newline `"\n"`. -/
theorem claim8 :
    flatten (.obj []) = [] ∧ toCsv [] = "\n" ∧ convertToCSV (.obj []) = "\n" :=
  ⟨rfl, rfl, rfl⟩

/-- C9: the renderer maps `null` to `Scalar("N/A")`, `true` to
`Scalar("Yes")`, `false` to `Scalar("No")`, and any other scalar to the
scalar of its natural stringified form, at every position in the tree. -/
theorem claim9 :
    renderValue .null = .scalar "N/A" ∧
      renderValue (.bool true) = .scalar "Yes" ∧
      renderValue (.bool false) = .scalar "No" ∧
      (∀ n : Int, renderValue (.num n) = .scalar (toString n)) ∧
      (∀ s : String, renderValue (.str s) = .scalar s) ∧
      renderValue (.arr [.null, .bool true, .num 5]) =
        .list [.scalar "N/A", .scalar "Yes", .scalar "5"] ∧
      renderValue (.obj [("k", .bool false)]) = .table [("k", .scalar "No")] :=
  ⟨rfl, rfl, rfl, fun _ => rfl, fun _ => rfl, rfl, rfl⟩

/-- C10: every falsy root value -- `null`, `false`, `0` and the empty
string -- produces the "No data to display" outcome at the top level
instead of being classified and rendered; in particular a root of
`false` yields no-data, even though the renderer itself would map it to
`Scalar("No")`. -/
theorem claim10 :
    (∀ v : JsonValue, jsTruthy v = false → resultsTable v = .noData) ∧
      resultsTable (.bool false) = .noData ∧
      renderValue (.bool false) = .scalar "No" ∧
      resultsTable (.num 0) = .noData ∧
      resultsTable (.str "") = .noData ∧
      resultsTable .null = .noData := by
  refine ⟨fun v h => ?_, rfl, rfl, rfl, rfl, rfl⟩
  simp [resultsTable, h]

/-- Witness for C10 at the falsy root `0`. -/
theorem claim10_witness :
    jsTruthy (JsonValue.num 0) = false ∧
      resultsTable (JsonValue.num 0) = RenderOutcome.noData :=
  ⟨rfl, claim10.1 (.num 0) rfl⟩

end TokenLegal
